import Mathlib

/-!
Verification of the DemoScripter core against its sources.

Shallow embedding of:
  * src/src/typer_engine.py  (TyperEngine: speed presets, humanized delays,
    the background typing worker, cooperative cancellation),
  * src/src/models.py        (Step and Script dataclasses),
  * src/src/storage.py       (JSON persistence: load/save and helpers),
  * src/src/app.py           (the global-hotkey dispatch: _on_global_key and
    _type_next_step).

Modelling conventions:
  * Python floats are modelled as exact rationals (every literal in the
    source is a short decimal, written here as a fraction, e.g. 0.022 = 22/1000).
  * A Python string is modelled as a Lean String, or as a List Char where the
    source iterates over its characters.
  * The typing worker's observable behaviour is a trace of events (KeyEvent):
    synthetic keystrokes, sleeps and callback invocations, in program order.
  * random.uniform(a, b) is modelled by an arbitrary sampler function
    u : Rat -> Rat -> Rat; theorems that depend on the draw being in range
    take the hypothesis that u a b lies in the interval a..b.
  * The threading.Event cancellation signal is set once by stop() and only
    cleared when a new session starts, so within a session the observations
    of the signal are monotone over time.  The worker queries it before each
    character (check index i for the i-th character) and once more before the
    trailing Enter (check index text.length).  A session's cancellation is
    therefore modelled by cancelAt : Option Nat - the first check index at
    which the signal is observed set (none = never observed).
  * An exception escaping any primitive operation of the worker (a sleep, an
    OS keystroke injection, or the on_char callback) is modelled by a failure
    schedule FailSched saying which primitive raises; the try/finally block of
    the worker then runs the finalization regardless.
-/

/-! ## Engine state (typer_engine.py, class TyperEngine) -/

/-- State of a `TyperEngine` instance: `base_delay`, `humanize`, `is_typing`
and the `_stop` event (`stopRequested`). The pynput `Controller` is an
external effect and carries no state we model. -/
structure TyperEngine where
  base_delay : ℚ
  humanize : Bool
  is_typing : Bool
  stopRequested : Bool
deriving DecidableEq

/-- `TyperEngine.SPEED_PRESETS`: the dict `{"Slow": 0.065, "Normal": 0.040,
"Fast": 0.022, "Very Fast": 0.010}` as a partial map from names to rates. -/
def SPEED_PRESETS (name : String) : Option ℚ :=
  if name = "Slow" then some (65/1000)
  else if name = "Normal" then some (40/1000)
  else if name = "Fast" then some (22/1000)
  else if name = "Very Fast" then some (10/1000)
  else none

/-- `TyperEngine.__init__`: base_delay = SPEED_PRESETS["Fast"], humanize on,
not typing, stop event clear. (The "Fast" lookup cannot miss; `getD` only
supplies the impossible-default.) -/
def TyperEngine.init : TyperEngine :=
  { base_delay := (SPEED_PRESETS "Fast").getD (22/1000)
    humanize := true
    is_typing := false
    stopRequested := false }

/-- `TyperEngine.set_speed(preset_name)`:
`self.base_delay = self.SPEED_PRESETS.get(preset_name, 0.022)`. -/
def TyperEngine.set_speed (e : TyperEngine) (preset_name : String) : TyperEngine :=
  { e with base_delay := (SPEED_PRESETS preset_name).getD (22/1000) }

/-- `TyperEngine.set_speed_value(delay)`: `self.base_delay = max(0.003, delay)`. -/
def TyperEngine.set_speed_value (e : TyperEngine) (delay : ℚ) : TyperEngine :=
  { e with base_delay := max (3/1000) delay }

/-- `TyperEngine.stop()`: `self._stop.set(); self.is_typing = False` - both on
the calling thread, without waiting for the worker. -/
def TyperEngine.stop (e : TyperEngine) : TyperEngine :=
  { e with stopRequested := true, is_typing := false }

/-- The synchronous prefix of `TyperEngine.type_text`:
`self._stop.clear(); self.is_typing = True` (then the worker is spawned). -/
def TyperEngine.type_text_start (e : TyperEngine) : TyperEngine :=
  { e with stopRequested := false, is_typing := true }

/-! ## Humanized per-keystroke delay (typer_engine.py lines 93-103) -/

/-- The characters of the string literal `" .,!?;:\n"`. -/
def pauseChars : List Char := [' ', '.', ',', '!', '?', ';', ':', '\n']

/-- `char in " .,!?;:\n"`. -/
def isPauseChar (c : Char) : Bool := pauseChars.contains c

/-- The jitter drawn for one character: `random.uniform(0.01, 0.05)` at a
pause character, `random.uniform(-0.008, 0.015)` otherwise, where `u` is the
sampler standing for `random.uniform`. -/
def drawJitter (u : ℚ → ℚ → ℚ) (c : Char) : ℚ :=
  if isPauseChar c then u (1/100) (5/100) else u (-(8/1000)) (15/1000)

/-- The inter-keystroke delay computed by the worker for one character:
`delay = base_delay`; if humanize, add the jitter and floor the result at
`0.003`. -/
def keyDelay (base : ℚ) (humanize : Bool) (u : ℚ → ℚ → ℚ) (c : Char) : ℚ :=
  if humanize then max (3/1000) (base + drawJitter u c) else base

/-! ## The worker's event trace (typer_engine.py lines 75-113) -/

/-- One observable event of a typing session, in program order: a synthetic
character keystroke (`controller.type`), the `on_char` callback, a sleep, the
Caps Lock press/release pair, the Enter press/release, and `on_done`. -/
inductive KeyEvent where
  | char (i : Nat) (c : Char)
  | onChar (i : Nat) (c : Char)
  | sleep (d : ℚ)
  | capsPress
  | capsRelease
  | enterPress
  | enterRelease
  | onDone
deriving DecidableEq

/-- Whether the cancellation signal is observed set at check index `k`, when
the signal first becomes visible at check index `cancelAt` (monotone: once
set it stays set for the rest of the session). -/
def stopSet (cancelAt : Option Nat) (k : Nat) : Bool :=
  match cancelAt with
  | none => false
  | some m => decide (m ≤ k)

/-- Which primitive operations of one worker run raise an exception.  Each
field corresponds to one fallible call site in `_worker`: the initial sleep,
the Caps Lock handling, and per character index the `controller.type` call,
the `on_char` callback, and the inter-key sleep; finally the pre-Enter sleep
and the Enter press/release. -/
structure FailSched where
  initSleep : Bool
  capsFail : Bool
  typeFail : Nat → Bool
  onCharFail : Nat → Bool
  sleepFail : Nat → Bool
  enterSleepFail : Bool
  enterPressFail : Bool
  enterReleaseFail : Bool

/-- The schedule on which no primitive raises. -/
def noFail : FailSched :=
  { initSleep := false
    capsFail := false
    typeFail := fun _ => false
    onCharFail := fun _ => false
    sleepFail := fun _ => false
    enterSleepFail := false
    enterPressFail := false
    enterReleaseFail := false }

/-- Events of `if on_char: on_char(i, char)`. -/
def onCharEvs (hasOnChar : Bool) (i : Nat) (c : Char) : List KeyEvent :=
  if hasOnChar then [KeyEvent.onChar i c] else []

/-- Events of `_disable_caps_lock()`: a press/release pair iff Caps Lock was
on.  (`_is_caps_lock_on` swallows its own exceptions and returns False.) -/
def capsEvs (capsOn : Bool) : List KeyEvent :=
  if capsOn then [KeyEvent.capsPress, KeyEvent.capsRelease] else []

/-- Events of the `finally` block's `if on_done: on_done()`. -/
def onDoneEvs (hasOnDone : Bool) : List KeyEvent :=
  if hasOnDone then [KeyEvent.onDone] else []

/-- The `for i, char in enumerate(text)` loop of `_worker`, started at
character index `i`: check the stop signal, type the character, run
`on_char`, sleep the humanized delay, continue.  Returns the events emitted
and whether an exception escaped the loop. -/
def emitChars (e : TyperEngine) (hasOnChar : Bool) (cancelAt : Option Nat)
    (u : Nat → ℚ → ℚ → ℚ) (f : FailSched) :
    Nat → List Char → List KeyEvent × Bool
  | _, [] => ([], false)
  | i, c :: rest =>
    if stopSet cancelAt i then ([], false)
    else if f.typeFail i then ([], true)
    else if hasOnChar && f.onCharFail i then ([KeyEvent.char i c], true)
    else if f.sleepFail i then (KeyEvent.char i c :: onCharEvs hasOnChar i c, true)
    else
      (KeyEvent.char i c ::
        (onCharEvs hasOnChar i c ++
          KeyEvent.sleep (keyDelay e.base_delay e.humanize (u i) c) ::
            (emitChars e hasOnChar cancelAt u f (i + 1) rest).1),
       (emitChars e hasOnChar cancelAt u f (i + 1) rest).2)

/-- The `try` body of `_worker`: initial sleep of `delay_before`, Caps Lock
normalization, the character loop, then (if `press_enter` and the signal is
not set at the final check) sleep 0.08 and press/release Enter.  Returns the
emitted events and whether an exception escaped the body. -/
def workerBody (e : TyperEngine) (text : List Char) (press_enter : Bool)
    (delay_before : ℚ) (hasOnChar capsOn : Bool) (cancelAt : Option Nat)
    (u : Nat → ℚ → ℚ → ℚ) (f : FailSched) : List KeyEvent × Bool :=
  if f.initSleep then ([], true)
  else if f.capsFail then ([KeyEvent.sleep delay_before], true)
  else if (emitChars e hasOnChar cancelAt u f 0 text).2 then
    ((KeyEvent.sleep delay_before :: capsEvs capsOn) ++
       (emitChars e hasOnChar cancelAt u f 0 text).1,
     true)
  else if press_enter && !(stopSet cancelAt text.length) then
    if f.enterSleepFail then
      ((KeyEvent.sleep delay_before :: capsEvs capsOn) ++
         (emitChars e hasOnChar cancelAt u f 0 text).1,
       true)
    else if f.enterPressFail then
      ((KeyEvent.sleep delay_before :: capsEvs capsOn) ++
         (emitChars e hasOnChar cancelAt u f 0 text).1 ++ [KeyEvent.sleep (8/100)],
       true)
    else if f.enterReleaseFail then
      ((KeyEvent.sleep delay_before :: capsEvs capsOn) ++
         (emitChars e hasOnChar cancelAt u f 0 text).1 ++
         [KeyEvent.sleep (8/100), KeyEvent.enterPress],
       true)
    else
      ((KeyEvent.sleep delay_before :: capsEvs capsOn) ++
         (emitChars e hasOnChar cancelAt u f 0 text).1 ++
         [KeyEvent.sleep (8/100), KeyEvent.enterPress, KeyEvent.enterRelease],
       false)
  else
    ((KeyEvent.sleep delay_before :: capsEvs capsOn) ++
       (emitChars e hasOnChar cancelAt u f 0 text).1,
     false)

/-- Outcome of one full worker run, after the `finally` block. -/
structure RunResult where
  trace : List KeyEvent
  raised : Bool
  is_typing : Bool
deriving DecidableEq

/-- One full run of `_worker` for a `type_text` session.  The `finally`
block runs on every exit (normal, cancelled, or raising): it sets
`is_typing = False` and then invokes `on_done` if provided, so the trace
always ends with the `on_done` events and the engine flag is false when the
worker exits. -/
def typeTextRun (e : TyperEngine) (text : List Char) (press_enter : Bool)
    (delay_before : ℚ) (hasOnChar hasOnDone capsOn : Bool)
    (cancelAt : Option Nat) (u : Nat → ℚ → ℚ → ℚ) (f : FailSched) : RunResult :=
  { trace :=
      (workerBody e text press_enter delay_before hasOnChar capsOn cancelAt u f).1 ++
        onDoneEvs hasOnDone
    raised := (workerBody e text press_enter delay_before hasOnChar capsOn cancelAt u f).2
    is_typing := false }

/-- The event trace of one `type_text` session. -/
def runTrace (e : TyperEngine) (text : List Char) (press_enter : Bool)
    (delay_before : ℚ) (hasOnChar hasOnDone capsOn : Bool)
    (cancelAt : Option Nat) (u : Nat → ℚ → ℚ → ℚ) (f : FailSched) : List KeyEvent :=
  (typeTextRun e text press_enter delay_before hasOnChar hasOnDone capsOn cancelAt u f).trace

/-- `type_text` with Python's defaulting of the optional arguments
`press_enter=True` and `delay_before=0.3` (`none` = argument omitted). -/
def typeTextRunWithDefaults (e : TyperEngine) (text : List Char)
    (press_enter : Option Bool) (delay_before : Option ℚ)
    (hasOnChar hasOnDone capsOn : Bool) (cancelAt : Option Nat)
    (u : Nat → ℚ → ℚ → ℚ) (f : FailSched) : RunResult :=
  typeTextRun e text (press_enter.getD true) (delay_before.getD (3/10))
    hasOnChar hasOnDone capsOn cancelAt u f

/-! ## Trace observations -/

/-- The externally visible keystrokes of the session that the spec's
properties count: character emissions and the Enter pair. -/
inductive CoreEv where
  | ch (i : Nat) (c : Char)
  | entPress
  | entRelease
deriving DecidableEq

/-- Project a trace event to its core keystroke, if any. -/
def coreOf (ev : KeyEvent) : Option CoreEv :=
  match ev with
  | KeyEvent.char i c => some (CoreEv.ch i c)
  | KeyEvent.enterPress => some CoreEv.entPress
  | KeyEvent.enterRelease => some CoreEv.entRelease
  | _ => none

/-- Whether an event is a character emission. -/
def isCharEv (ev : KeyEvent) : Bool :=
  match ev with
  | KeyEvent.char _ _ => true
  | _ => false

/-- Accumulate, for each character emission after the first, the total time
slept since the previous character emission.  The state is `none` before the
first character and `some acc` afterwards. -/
def gapsAux : List KeyEvent → Option ℚ → List ℚ
  | [], _ => []
  | KeyEvent.char _ _ :: rest, none => gapsAux rest (some 0)
  | KeyEvent.char _ _ :: rest, some acc => acc :: gapsAux rest (some 0)
  | KeyEvent.sleep d :: rest, some acc => gapsAux rest (some (acc + d))
  | _ :: rest, st => gapsAux rest st

/-- The list of inter-keystroke delays between consecutive character
emissions of a trace. -/
def interCharGaps (tr : List KeyEvent) : List ℚ := gapsAux tr none

/-- How many characters the loop will emit before stopping, when started at
index `i` over a list of length `len`: all of them if never cancelled,
otherwise up to check index `m`. -/
def remaining (cancelAt : Option Nat) (i len : Nat) : Nat :=
  match cancelAt with
  | none => len
  | some m => m - i

/-! ## Data model (models.py) -/

/-- The `Step` dataclass: one message to be typed out. -/
structure StepM where
  id : String
  text : String
  press_enter : Bool
  delay_before : ℚ
deriving DecidableEq

/-- `Step()` constructed with no arguments: the dataclass defaults, with
`uuid` the fresh identifier produced by the `uuid.uuid4()` default factory. -/
def StepM.new (uuid : String) : StepM :=
  { id := uuid, text := "", press_enter := true, delay_before := 3/10 }

/-- The `Script` dataclass: a named ordered collection of steps. -/
structure ScriptM where
  id : String
  name : String
  description : String
  steps : List StepM
  created_at : String
  updated_at : String
deriving DecidableEq

/-! ## Storage (storage.py) -/

/-- A JSON value, as produced by `json.load` / consumed by `json.dump`. -/
inductive JsonV where
  | str (s : String)
  | bool (b : Bool)
  | num (q : ℚ)
  | arr (xs : List JsonV)
  | obj (fields : List (String × JsonV))

/-- The exceptions relevant to `Storage.load`: `KeyError` is caught by the
`except` clause; everything else the body can raise (`TypeError`,
`AttributeError`) propagates, collapsed here into `uncaught`. -/
inductive PyError where
  | keyError
  | uncaught
deriving DecidableEq

/-- The state of the persisted scripts file: absent, present but not valid
JSON (`json.load` raises `JSONDecodeError`), or holding a JSON document. -/
inductive FileContent where
  | missing
  | malformed
  | json (v : JsonV)

/-- Python `d.get(k)` on a dict parsed from JSON: first binding of the key. -/
def lookupField (fields : List (String × JsonV)) (k : String) : Option JsonV :=
  (fields.find? (fun p => p.1 == k)).map (fun p => p.2)

/-- `d[k]` where a string is expected: missing key raises `KeyError`.
Model restriction: Python dataclasses do not check field types, so a
non-string value would be accepted verbatim by the source; the typed model
rejects it as `uncaught` instead.  No claim exercises ill-typed fields. -/
def reqStr (fields : List (String × JsonV)) (k : String) : Except PyError String :=
  match lookupField fields k with
  | none => Except.error PyError.keyError
  | some (JsonV.str s) => Except.ok s
  | some _ => Except.error PyError.uncaught

/-- `d.get(k, dflt)` where a string is expected (same model restriction as
`reqStr`). -/
def optStr (fields : List (String × JsonV)) (k : String) (dflt : String) :
    Except PyError String :=
  match lookupField fields k with
  | none => Except.ok dflt
  | some (JsonV.str s) => Except.ok s
  | some _ => Except.error PyError.uncaught

/-- `d.get(k, dflt)` where a boolean is expected. -/
def optBool (fields : List (String × JsonV)) (k : String) (dflt : Bool) :
    Except PyError Bool :=
  match lookupField fields k with
  | none => Except.ok dflt
  | some (JsonV.bool b) => Except.ok b
  | some _ => Except.error PyError.uncaught

/-- `d.get(k, dflt)` where a number is expected. -/
def optNum (fields : List (String × JsonV)) (k : String) (dflt : ℚ) :
    Except PyError ℚ :=
  match lookupField fields k with
  | none => Except.ok dflt
  | some (JsonV.num q) => Except.ok q
  | some _ => Except.error PyError.uncaught

/-- The keyword parameters accepted by `Step(**s)`. -/
def stepKeys : List String := ["id", "text", "press_enter", "delay_before"]

/-- `Storage._dict_to_script`'s per-step work: `s.pop("role", None)` then
`Step(**s)`.  A keyword not in `stepKeys` makes the constructor raise
`TypeError`; missing keywords take the dataclass defaults, with `fid` the
fresh `uuid4` for a missing `id`. -/
def stepFromDict (fid : String) (sf : List (String × JsonV)) :
    Except PyError StepM := do
  let sf2 := sf.filter (fun p => !(p.1 == "role"))
  if sf2.any (fun p => !(stepKeys.contains p.1)) then Except.error PyError.uncaught
  else do
    let i ← optStr sf2 "id" fid
    let t ← optStr sf2 "text" ""
    let pe ← optBool sf2 "press_enter" true
    let db ← optNum sf2 "delay_before" (3/10)
    Except.ok { id := i, text := t, press_enter := pe, delay_before := db }

/-- One raw step entry of the `steps` array: `s.pop` / `Step(**s)` demand a
dict; any other JSON value raises (`AttributeError`/`TypeError`). -/
def stepOfJson (fid : String) (s : JsonV) : Except PyError StepM :=
  match s with
  | JsonV.obj sf => stepFromDict fid sf
  | _ => Except.error PyError.uncaught

/-- Sequence a fallible indexed function over a list, stopping at the first
error (the behaviour of a Python list comprehension / for loop). -/
def mapExceptIdx {α : Type} (f : Nat → JsonV → Except PyError α) :
    Nat → List JsonV → Except PyError (List α)
  | _, [] => Except.ok []
  | i, x :: xs =>
    match f i x with
    | Except.error err => Except.error err
    | Except.ok a =>
      match mapExceptIdx f (i + 1) xs with
      | Except.error err => Except.error err
      | Except.ok rest => Except.ok (a :: rest)

/-- `Storage._dict_to_script(d)`: process `d.get("steps", [])` first (the
source builds the step list before touching the required keys), then read
`id` and `name` (required: `KeyError` when missing) and the defaulted
metadata fields.  A non-dict record or non-list `steps` value raises.
`fresh j` is the `uuid4` drawn for step `j` if that step lacks an `id`. -/
def scriptFromDict (fresh : Nat → String) (d : JsonV) : Except PyError ScriptM :=
  match d with
  | JsonV.obj fields =>
    match (lookupField fields "steps").getD (JsonV.arr []) with
    | JsonV.arr rawSteps =>
      match mapExceptIdx (fun j s => stepOfJson (fresh j) s) 0 rawSteps with
      | Except.error err => Except.error err
      | Except.ok steps => do
        let i ← reqStr fields "id"
        let n ← reqStr fields "name"
        let de ← optStr fields "description" ""
        let ca ← optStr fields "created_at" ""
        let ua ← optStr fields "updated_at" ""
        Except.ok { id := i, name := n, description := de, steps := steps,
                    created_at := ca, updated_at := ua }
    | _ => Except.error PyError.uncaught
  | _ => Except.error PyError.uncaught

/-- The body of `Storage.load` after `json.load` succeeded:
`[self._dict_to_script(d) for d in data]`.  Iterating a non-list document
raises a `TypeError` at or before the first record. -/
def parseScripts (fresh : Nat → Nat → String) (v : JsonV) :
    Except PyError (List ScriptM) :=
  match v with
  | JsonV.arr ds => mapExceptIdx (fun i d => scriptFromDict (fresh i) d) 0 ds
  | _ => Except.error PyError.uncaught

/-- `Storage._script_to_dict`'s per-step dict. -/
def stepToDict (st : StepM) : JsonV :=
  JsonV.obj [("id", JsonV.str st.id), ("text", JsonV.str st.text),
             ("press_enter", JsonV.bool st.press_enter),
             ("delay_before", JsonV.num st.delay_before)]

/-- `Storage._script_to_dict(s)`. -/
def scriptToDict (s : ScriptM) : JsonV :=
  JsonV.obj [("id", JsonV.str s.id), ("name", JsonV.str s.name),
             ("description", JsonV.str s.description),
             ("steps", JsonV.arr (s.steps.map stepToDict)),
             ("created_at", JsonV.str s.created_at),
             ("updated_at", JsonV.str s.updated_at)]

/-- `Storage.save(scripts)`: the JSON document written to the file. -/
def saveScripts (scripts : List ScriptM) : JsonV :=
  JsonV.arr (scripts.map scriptToDict)

/-- `Storage.load()`: missing file and undecodable JSON yield `[]`
(`JSONDecodeError` is caught), a `KeyError` from a record yields `[]`, and
any other exception propagates.  The file is opened read-only, so the second
component (the file state after the call) is unchanged. -/
def storageLoad (fresh : Nat → Nat → String) (fc : FileContent) :
    Except PyError (List ScriptM) × FileContent :=
  match fc with
  | FileContent.missing => (Except.ok [], fc)
  | FileContent.malformed => (Except.ok [], fc)
  | FileContent.json v =>
    match parseScripts fresh v with
    | Except.ok l => (Except.ok l, fc)
    | Except.error PyError.keyError => (Except.ok [], fc)
    | Except.error PyError.uncaught => (Except.error PyError.uncaught, fc)

/-! ## Hotkey dispatch (app.py, _on_global_key / _type_next_step) -/

/-- The slice of `DemoScripterApp` state the dispatch path touches. -/
structure AppState where
  selected_script : Option ScriptM
  demo_running : Bool
  demo_step_idx : Nat
  hotkey_key : String
  typer : TyperEngine
deriving DecidableEq

/-- `DemoScripterApp._type_next_step`: guard on a selected script, the demo
running and the index in range; capture the step at the current index,
increment the index, then hand the step to `type_text` (which clears the
stop event and sets `is_typing`).  Returns the new state and the list of
emission sessions started (the captured steps). -/
def typeNextStep (s : AppState) : AppState × List StepM :=
  match s.selected_script with
  | none => (s, [])
  | some scr =>
    if s.demo_running = false then (s, [])
    else if h : s.demo_step_idx < scr.steps.length then
      let step := scr.steps.get ⟨s.demo_step_idx, h⟩
      ({ s with demo_step_idx := s.demo_step_idx + 1
                typer := s.typer.type_text_start },
       [step])
    else (s, [])

/-- `DemoScripterApp._on_global_key(key)`: react only when the pressed key is
the configured hotkey, the demo is running and the engine is not typing; the
reaction (deferred by `self.after(10, ...)` onto the UI thread) is
`_type_next_step`. -/
def onGlobalKey (s : AppState) (key : String) : AppState × List StepM :=
  if key = s.hotkey_key ∧ s.demo_running = true ∧ s.typer.is_typing = false then
    typeNextStep s
  else (s, [])

/-! ## Theorems

Helper lemmas first, then one theorem per claim (C1-C10), each with a
witness when its statement carries a hypothesis. -/

/-! ### Storage lemmas -/

theorem stepOfJson_stepToDict (fid : String) (st : StepM) :
    stepOfJson fid (stepToDict st) = Except.ok st := rfl

theorem mapExceptIdx_steps (sts : List StepM) :
    ∀ (fresh : Nat → String) (j : Nat),
      mapExceptIdx (fun j s => stepOfJson (fresh j) s) j (sts.map stepToDict) =
        Except.ok sts := by
  induction sts with
  | nil => intro fresh j; rfl
  | cons st rest ih =>
    intro fresh j
    simp only [List.map_cons, mapExceptIdx, stepOfJson_stepToDict, ih]

theorem scriptFromDict_scriptToDict (fresh : Nat → String) (s : ScriptM) :
    scriptFromDict fresh (scriptToDict s) = Except.ok s := by
  have h0 : scriptFromDict fresh (scriptToDict s) =
      (match mapExceptIdx (fun j st => stepOfJson (fresh j) st) 0
          (s.steps.map stepToDict) with
       | Except.error err => Except.error err
       | Except.ok steps =>
         Except.ok { id := s.id, name := s.name, description := s.description,
                     steps := steps, created_at := s.created_at,
                     updated_at := s.updated_at }) := rfl
  rw [h0, mapExceptIdx_steps]

theorem mapExceptIdx_scripts (scripts : List ScriptM) :
    ∀ (fresh : Nat → Nat → String) (i : Nat),
      mapExceptIdx (fun i d => scriptFromDict (fresh i) d) i
          (scripts.map scriptToDict) = Except.ok scripts := by
  induction scripts with
  | nil => intro fresh i; rfl
  | cons s rest ih =>
    intro fresh i
    simp only [List.map_cons, mapExceptIdx, scriptFromDict_scriptToDict, ih]

theorem parseScripts_saveScripts (fresh : Nat → Nat → String)
    (scripts : List ScriptM) :
    parseScripts fresh (saveScripts scripts) = Except.ok scripts := by
  simp only [parseScripts, saveScripts, mapExceptIdx_scripts]

/-! ### Claim theorems: storage -/

/-- C5: saving a collection of scripts and loading it back reproduces every
field of every script and step in the same order, and a legacy `role` key on
a step record is silently dropped (loading behaves exactly as if the key
were absent). -/
theorem storage_save_load_roundtrip :
    ∀ (fresh : Nat → Nat → String) (scripts : List ScriptM),
      storageLoad fresh (FileContent.json (saveScripts scripts)) =
        (Except.ok scripts, FileContent.json (saveScripts scripts)) ∧
      (∀ (fid : String) (v : JsonV) (sf : List (String × JsonV)),
        stepFromDict fid (("role", v) :: sf) = stepFromDict fid sf) := by
  intro fresh scripts
  constructor
  · simp only [storageLoad, parseScripts_saveScripts]
  · intro fid v sf
    have hf : List.filter (fun p => !(p.1 == "role")) (("role", v) :: sf) =
        List.filter (fun p => !(p.1 == "role")) sf := by
      simp [List.filter_cons]
    simp only [stepFromDict, hf]

/-- C6 counterexample: a persisted array whose single record is an object
missing the required `id` and `name` keys, with a non-list `steps` value,
makes `Storage.load` raise (Python: `TypeError` iterating the steps value)
instead of returning the empty collection the claim promises for every
record missing a required key. -/
theorem storage_load_shape_error_cex :
    (storageLoad (fun _ _ => "u")
        (FileContent.json (JsonV.arr [JsonV.obj [("steps", JsonV.num 5)]]))).1 =
      Except.error PyError.uncaught ∧
    (storageLoad (fun _ _ => "u")
        (FileContent.json (JsonV.arr [JsonV.obj [("steps", JsonV.num 5)]]))).1 ≠
      Except.ok [] := by
  refine ⟨rfl, ?_⟩
  intro h
  exact Except.noConfusion h

/-- C6 amended: `Storage.load` returns the empty collection when the file is
missing, when its bytes fail to parse as JSON, and when decoding the parsed
records raises a `KeyError` (a record that is a JSON object missing a
required key); record shapes that raise other exceptions (non-object
records, non-list `steps`) propagate the error instead. -/
theorem storage_load_caught_errors_empty :
    ∀ (fresh : Nat → Nat → String),
      (storageLoad fresh FileContent.missing).1 = Except.ok [] ∧
      (storageLoad fresh FileContent.malformed).1 = Except.ok [] ∧
      (∀ v : JsonV, parseScripts fresh v = Except.error PyError.keyError →
        (storageLoad fresh (FileContent.json v)).1 = Except.ok []) := by
  intro fresh
  refine ⟨rfl, rfl, ?_⟩
  intro v h
  simp [storageLoad, h]

/-- C6 amended, witness: a record that is an object with only a `name` key
raises `KeyError` on `d["id"]`, which `load` catches, returning `[]`. -/
theorem storage_load_caught_errors_empty_witness :
    (storageLoad (fun _ _ => "u")
        (FileContent.json (JsonV.arr [JsonV.obj [("name", JsonV.str "x")]]))).1 =
      Except.ok [] :=
  (storage_load_caught_errors_empty (fun _ _ => "u")).2.2
    (JsonV.arr [JsonV.obj [("name", JsonV.str "x")]]) rfl

/-- C10: loading when the persisted file does not exist yields the empty
collection without raising and leaves the file state untouched (the file is
only ever opened for reading); and a script record carrying only `id` and
`name` loads with `description`, `created_at`, `updated_at` defaulting to
the empty string and `steps` to the empty list. -/
theorem storage_load_missing_and_optional_fields :
    ∀ (fresh : Nat → Nat → String),
      storageLoad fresh FileContent.missing = (Except.ok [], FileContent.missing) ∧
      (∀ (fr : Nat → String) (i n : String),
        scriptFromDict fr (JsonV.obj [("id", JsonV.str i), ("name", JsonV.str n)]) =
          Except.ok { id := i, name := n, description := "", steps := [],
                      created_at := "", updated_at := "" }) := by
  intro fresh
  exact ⟨rfl, fun fr i n => rfl⟩

/-! ### Claim theorems: speed presets and defaults -/

/-- C7: the four presets map Slow, Normal, Fast, "Very Fast" to 0.065,
0.040, 0.022, 0.010 seconds; `set_speed` installs the preset value for a
recognized name and 0.022 for an unrecognized one; `set_speed_value` clamps
to a minimum of 0.003. -/
theorem speed_presets_and_setters :
    SPEED_PRESETS "Slow" = some (65/1000) ∧
    SPEED_PRESETS "Normal" = some (40/1000) ∧
    SPEED_PRESETS "Fast" = some (22/1000) ∧
    SPEED_PRESETS "Very Fast" = some (10/1000) ∧
    (∀ (e : TyperEngine) (name : String) (q : ℚ),
      SPEED_PRESETS name = some q → (e.set_speed name).base_delay = q) ∧
    (∀ (e : TyperEngine) (name : String),
      SPEED_PRESETS name = none → (e.set_speed name).base_delay = 22/1000) ∧
    (∀ (e : TyperEngine) (d : ℚ),
      (e.set_speed_value d).base_delay = max (3/1000) d) := by
  refine ⟨by simp [SPEED_PRESETS], by simp [SPEED_PRESETS], by simp [SPEED_PRESETS],
    by simp [SPEED_PRESETS], ?_, ?_, ?_⟩
  · intro e name q h
    simp [TyperEngine.set_speed, h]
  · intro e name h
    simp [TyperEngine.set_speed, h]
  · intro e d
    rfl

/-- C7 witness: concrete engine updates exercising a recognized preset, an
unrecognized preset name, and the clamped direct setter. -/
theorem speed_presets_and_setters_witness :
    (TyperEngine.init.set_speed "Slow").base_delay = 65/1000 ∧
    (TyperEngine.init.set_speed "bogus").base_delay = 22/1000 ∧
    (TyperEngine.init.set_speed_value (1/1000)).base_delay = 3/1000 := by
  refine ⟨speed_presets_and_setters.2.2.2.2.1 TyperEngine.init "Slow" (65/1000)
      (by simp [SPEED_PRESETS]),
    speed_presets_and_setters.2.2.2.2.2.1 TyperEngine.init "bogus"
      (by simp [SPEED_PRESETS]),
    ?_⟩
  rw [speed_presets_and_setters.2.2.2.2.2.2 TyperEngine.init (1/1000)]
  norm_num

/-- C9: a `Step` built with no arguments has empty text, `press_enter` true,
`delay_before` 0.3 and the freshly generated uuid as its id; and `type_text`
invoked without `press_enter` / `delay_before` behaves exactly as if called
with `press_enter=True`, `delay_before=0.3`. -/
theorem step_and_type_text_defaults :
    ∀ uuid : String,
      (StepM.new uuid).text = "" ∧
      (StepM.new uuid).press_enter = true ∧
      (StepM.new uuid).delay_before = 3/10 ∧
      (StepM.new uuid).id = uuid ∧
      (∀ (e : TyperEngine) (text : List Char) (hasOnChar hasOnDone capsOn : Bool)
          (cancelAt : Option Nat) (u : Nat → ℚ → ℚ → ℚ) (f : FailSched),
        typeTextRunWithDefaults e text none none hasOnChar hasOnDone capsOn
            cancelAt u f =
          typeTextRun e text true (3/10) hasOnChar hasOnDone capsOn cancelAt u f) := by
  intro uuid
  exact ⟨rfl, rfl, rfl, rfl, fun e text hc hd caps ca u f => rfl⟩

/-! ### Claim theorem: hotkey dispatch -/

/-- C4: a trigger press while the engine is typing schedules nothing and
changes nothing; a trigger press while the demo runs, the engine is idle and
the index is in range increments the index by one and starts exactly one
session, for the step captured at the pre-increment index. -/
theorem hotkey_dispatch_guard_and_advance :
    ∀ (s : AppState) (key : String),
      (s.typer.is_typing = true → onGlobalKey s key = (s, [])) ∧
      (∀ (scr : ScriptM) (h : s.demo_step_idx < scr.steps.length),
        key = s.hotkey_key → s.demo_running = true → s.typer.is_typing = false →
        s.selected_script = some scr →
        onGlobalKey s key =
          ({ s with demo_step_idx := s.demo_step_idx + 1
                    typer := s.typer.type_text_start },
           [scr.steps.get ⟨s.demo_step_idx, h⟩])) := by
  intro s key
  constructor
  · intro ht
    simp [onGlobalKey, ht]
  · intro scr h hk hd htyping hsel
    simp [onGlobalKey, hk, hd, htyping, typeNextStep, hsel, h]

/-- C4 witness: a concrete one-step script; the press is dropped when the
engine is typing, and advances the index and starts the captured step when
it is idle. -/
theorem hotkey_dispatch_guard_and_advance_witness :
    onGlobalKey
        (AppState.mk (some (ScriptM.mk "s" "demo" "" [StepM.mk "st" "hi" true (3/10)] "" ""))
          true 0 "F9" { TyperEngine.init with is_typing := true }) "F9" =
      (AppState.mk (some (ScriptM.mk "s" "demo" "" [StepM.mk "st" "hi" true (3/10)] "" ""))
          true 0 "F9" { TyperEngine.init with is_typing := true }, []) ∧
    onGlobalKey
        (AppState.mk (some (ScriptM.mk "s" "demo" "" [StepM.mk "st" "hi" true (3/10)] "" ""))
          true 0 "F9" TyperEngine.init) "F9" =
      (AppState.mk (some (ScriptM.mk "s" "demo" "" [StepM.mk "st" "hi" true (3/10)] "" ""))
          true 1 "F9" TyperEngine.init.type_text_start,
       [StepM.mk "st" "hi" true (3/10)]) := by
  constructor
  · exact (hotkey_dispatch_guard_and_advance _ "F9").1 rfl
  · exact (hotkey_dispatch_guard_and_advance _ "F9").2
      (ScriptM.mk "s" "demo" "" [StepM.mk "st" "hi" true (3/10)] "" "")
      (by decide) rfl rfl rfl rfl

/-! ### Engine trace lemmas -/

theorem emitChars_cons_stop (e : TyperEngine) (hc : Bool) (ca : Option Nat)
    (u : Nat → ℚ → ℚ → ℚ) (f : FailSched) (i : Nat) (c : Char) (rest : List Char)
    (h : stopSet ca i = true) :
    emitChars e hc ca u f i (c :: rest) = ([], false) := by
  simp [emitChars, h]

theorem emitChars_cons_noFail (e : TyperEngine) (hc : Bool) (ca : Option Nat)
    (u : Nat → ℚ → ℚ → ℚ) (i : Nat) (c : Char) (rest : List Char)
    (h : stopSet ca i = false) :
    emitChars e hc ca u noFail i (c :: rest) =
      (KeyEvent.char i c ::
        (onCharEvs hc i c ++
          KeyEvent.sleep (keyDelay e.base_delay e.humanize (u i) c) ::
            (emitChars e hc ca u noFail (i + 1) rest).1),
       (emitChars e hc ca u noFail (i + 1) rest).2) := by
  simp [emitChars, h, noFail]

theorem emitChars_noFail_snd (e : TyperEngine) (hc : Bool) (ca : Option Nat)
    (u : Nat → ℚ → ℚ → ℚ) : ∀ (cs : List Char) (i : Nat),
    (emitChars e hc ca u noFail i cs).2 = false := by
  intro cs
  induction cs with
  | nil => intro i; rfl
  | cons c rest ih =>
    intro i
    by_cases h : stopSet ca i = true
    · rw [emitChars_cons_stop e hc ca u noFail i c rest h]
    · rw [emitChars_cons_noFail e hc ca u i c rest (by simpa using h)]
      exact ih (i + 1)

theorem filterMap_coreOf_onCharEvs (hc : Bool) (i : Nat) (c : Char) :
    (onCharEvs hc i c).filterMap coreOf = [] := by
  cases hc <;> simp [onCharEvs, coreOf]

theorem filterMap_coreOf_capsEvs (b : Bool) :
    (capsEvs b).filterMap coreOf = [] := by
  cases b <;> simp [capsEvs, coreOf]

theorem filterMap_coreOf_onDoneEvs (b : Bool) :
    (onDoneEvs b).filterMap coreOf = [] := by
  cases b <;> simp [onDoneEvs, coreOf]

theorem filterMap_coreOf_emit (e : TyperEngine) (hc : Bool) (ca : Option Nat)
    (u : Nat → ℚ → ℚ → ℚ) : ∀ (cs : List Char) (i : Nat),
    ((emitChars e hc ca u noFail i cs).1).filterMap coreOf =
      ((cs.take (remaining ca i cs.length)).enumFrom i).map
        (fun p => CoreEv.ch p.1 p.2) := by
  intro cs
  induction cs with
  | nil =>
    intro i
    cases ca <;> simp [emitChars, remaining]
  | cons c rest ih =>
    intro i
    cases ca with
    | none =>
      rw [emitChars_cons_noFail e hc none u i c rest rfl]
      simp [List.filterMap_cons, List.filterMap_append, coreOf,
        filterMap_coreOf_onCharEvs, ih, remaining, List.take_length,
        List.enumFrom]
    | some m =>
      by_cases h : m ≤ i
      · rw [emitChars_cons_stop e hc (some m) u noFail i c rest
          (by simp [stopSet, h])]
        simp [remaining, Nat.sub_eq_zero_of_le h]
      · rw [emitChars_cons_noFail e hc (some m) u i c rest
          (by simp [stopSet, h])]
        have h2 : m - i = (m - (i + 1)) + 1 := by omega
        simp [List.filterMap_cons, List.filterMap_append, coreOf,
          filterMap_coreOf_onCharEvs, ih, remaining, h2, List.take_succ_cons,
          List.enumFrom]

theorem gapsAux_char_some (i : Nat) (c : Char) (L : List KeyEvent) (a : ℚ) :
    gapsAux (KeyEvent.char i c :: L) (some a) = a :: gapsAux L (some 0) := rfl

theorem gapsAux_char_none (i : Nat) (c : Char) (L : List KeyEvent) :
    gapsAux (KeyEvent.char i c :: L) none = gapsAux L (some 0) := rfl

theorem gapsAux_sleep_some (d : ℚ) (L : List KeyEvent) (a : ℚ) :
    gapsAux (KeyEvent.sleep d :: L) (some a) = gapsAux L (some (a + d)) := rfl

theorem gapsAux_skip_none (ev : KeyEvent) (h : isCharEv ev = false)
    (L : List KeyEvent) : gapsAux (ev :: L) none = gapsAux L none := by
  cases ev <;> first | rfl | simp [isCharEv] at h

theorem gapsAux_onCharEvs_skip (hc : Bool) (i : Nat) (c : Char)
    (L : List KeyEvent) (st : Option ℚ) :
    gapsAux (onCharEvs hc i c ++ L) st = gapsAux L st := by
  cases hc <;> cases st <;> rfl

theorem gapsAux_capsEvs_skip (b : Bool) (L : List KeyEvent) :
    gapsAux (capsEvs b ++ L) none = gapsAux L none := by
  cases b <;> rfl

theorem gapsAux_no_char : ∀ (tr : List KeyEvent) (st : Option ℚ),
    (∀ ev ∈ tr, isCharEv ev = false) → gapsAux tr st = [] := by
  intro tr
  induction tr with
  | nil => intro st _; rfl
  | cons ev rest ih =>
    intro st h
    have hev : isCharEv ev = false := h ev (List.mem_cons_self ev rest)
    have hrest : ∀ x ∈ rest, isCharEv x = false :=
      fun x hx => h x (List.mem_cons_of_mem ev hx)
    cases ev with
    | char i c => simp [isCharEv] at hev
    | sleep d =>
      cases st with
      | none => exact ih none hrest
      | some a => exact ih (some (a + d)) hrest
    | onChar i c => exact ih st hrest
    | capsPress => exact ih st hrest
    | capsRelease => exact ih st hrest
    | enterPress => exact ih st hrest
    | enterRelease => exact ih st hrest
    | onDone => exact ih st hrest

theorem gapsAux_emit_some (e : TyperEngine) (hc : Bool) (u : Nat → ℚ → ℚ → ℚ)
    (hD : ∀ (j : Nat) (c : Char), 3/1000 ≤ keyDelay e.base_delay e.humanize (u j) c) :
    ∀ (cs : List Char) (i : Nat) (a : ℚ) (suffix : List KeyEvent),
      (∀ ev ∈ suffix, isCharEv ev = false) →
      ∀ g ∈ gapsAux ((emitChars e hc none u noFail i cs).1 ++ suffix) (some a),
        g = a ∨ 3/1000 ≤ g := by
  intro cs
  induction cs with
  | nil =>
    intro i a suffix hsuf g hg
    simp only [emitChars, List.nil_append] at hg
    rw [gapsAux_no_char suffix (some a) hsuf] at hg
    exact absurd hg (List.not_mem_nil g)
  | cons c rest ih =>
    intro i a suffix hsuf g hg
    rw [emitChars_cons_noFail e hc none u i c rest rfl, List.cons_append,
      gapsAux_char_some, List.append_assoc, gapsAux_onCharEvs_skip,
      List.cons_append, gapsAux_sleep_some] at hg
    rcases List.mem_cons.1 hg with h | h
    · exact Or.inl h
    · rcases ih (i + 1) (0 + keyDelay e.base_delay e.humanize (u i) c) suffix
        hsuf g h with h2 | h2
      · right
        rw [h2, zero_add]
        exact hD i c
      · exact Or.inr h2

theorem gapsAux_emit_none (e : TyperEngine) (hc : Bool) (u : Nat → ℚ → ℚ → ℚ)
    (hD : ∀ (j : Nat) (c : Char), 3/1000 ≤ keyDelay e.base_delay e.humanize (u j) c) :
    ∀ (cs : List Char) (i : Nat) (suffix : List KeyEvent),
      (∀ ev ∈ suffix, isCharEv ev = false) →
      ∀ g ∈ gapsAux ((emitChars e hc none u noFail i cs).1 ++ suffix) none,
        3/1000 ≤ g := by
  intro cs i suffix hsuf g hg
  cases cs with
  | nil =>
    simp only [emitChars, List.nil_append] at hg
    rw [gapsAux_no_char suffix none hsuf] at hg
    exact absurd hg (List.not_mem_nil g)
  | cons c rest =>
    rw [emitChars_cons_noFail e hc none u i c rest rfl, List.cons_append,
      gapsAux_char_none, List.append_assoc, gapsAux_onCharEvs_skip,
      List.cons_append, gapsAux_sleep_some] at hg
    rcases gapsAux_emit_some e hc u hD rest (i + 1)
        (0 + keyDelay e.base_delay e.humanize (u i) c) suffix hsuf g hg with h2 | h2
    · rw [h2, zero_add]
      exact hD i c
    · exact h2

theorem onDone_not_mem_onCharEvs (hc : Bool) (i : Nat) (c : Char) :
    KeyEvent.onDone ∉ onCharEvs hc i c := by
  cases hc <;> simp [onCharEvs]

theorem onDone_not_mem_capsEvs (b : Bool) : KeyEvent.onDone ∉ capsEvs b := by
  cases b <;> simp [capsEvs]

theorem onDone_not_mem_emit (e : TyperEngine) (hc : Bool) (ca : Option Nat)
    (u : Nat → ℚ → ℚ → ℚ) (f : FailSched) : ∀ (cs : List Char) (i : Nat),
    KeyEvent.onDone ∉ (emitChars e hc ca u f i cs).1 := by
  intro cs
  induction cs with
  | nil => intro i; simp [emitChars]
  | cons c rest ih =>
    intro i
    simp only [emitChars]
    split
    · simp
    · split
      · simp
      · split
        · simp
        · split
          · simp [List.mem_cons, onDone_not_mem_onCharEvs]
          · simp [List.mem_cons, List.mem_append, onDone_not_mem_onCharEvs, ih]

theorem onDone_not_mem_body (e : TyperEngine) (text : List Char) (pe : Bool)
    (db : ℚ) (hc capsOn : Bool) (ca : Option Nat) (u : Nat → ℚ → ℚ → ℚ)
    (f : FailSched) :
    KeyEvent.onDone ∉ (workerBody e text pe db hc capsOn ca u f).1 := by
  simp only [workerBody]
  repeat' split
  all_goals
    simp [List.mem_cons, List.mem_append, onDone_not_mem_capsEvs,
      onDone_not_mem_emit]

theorem runTrace_count_onDone (e : TyperEngine) (text : List Char) (pe : Bool)
    (db : ℚ) (hc hd capsOn : Bool) (ca : Option Nat) (u : Nat → ℚ → ℚ → ℚ)
    (f : FailSched) :
    (runTrace e text pe db hc hd capsOn ca u f).count KeyEvent.onDone =
      (if hd then 1 else 0) := by
  have h0 : (workerBody e text pe db hc capsOn ca u f).1.count KeyEvent.onDone = 0 :=
    List.count_eq_zero.2 (onDone_not_mem_body e text pe db hc capsOn ca u f)
  simp only [runTrace, typeTextRun]
  rw [List.count_append, h0]
  cases hd <;> simp [onDoneEvs]

theorem runTrace_ends_onDone (e : TyperEngine) (text : List Char) (pe : Bool)
    (db : ℚ) (hc capsOn : Bool) (ca : Option Nat) (u : Nat → ℚ → ℚ → ℚ)
    (f : FailSched) :
    (runTrace e text pe db hc true capsOn ca u f).getLast? =
      some KeyEvent.onDone := by
  simp only [runTrace, typeTextRun, onDoneEvs, if_true]
  exact List.getLast?_concat _

theorem noFail_initSleep : noFail.initSleep = false := rfl

theorem noFail_capsFail : noFail.capsFail = false := rfl

theorem noFail_enterSleepFail : noFail.enterSleepFail = false := rfl

theorem noFail_enterPressFail : noFail.enterPressFail = false := rfl

theorem noFail_enterReleaseFail : noFail.enterReleaseFail = false := rfl

theorem workerBody_noFail_shape (e : TyperEngine) (text : List Char) (pe : Bool)
    (db : ℚ) (hc capsOn : Bool) (ca : Option Nat) (u : Nat → ℚ → ℚ → ℚ) :
    workerBody e text pe db hc capsOn ca u noFail =
      ((KeyEvent.sleep db :: capsEvs capsOn) ++
         (emitChars e hc ca u noFail 0 text).1 ++
         (if pe && !(stopSet ca text.length) then
            [KeyEvent.sleep (8/100), KeyEvent.enterPress, KeyEvent.enterRelease]
          else []),
       false) := by
  by_cases hpe : (pe && !(stopSet ca text.length)) = true
  · simp [workerBody, noFail_initSleep, noFail_capsFail, noFail_enterSleepFail,
      noFail_enterPressFail, noFail_enterReleaseFail, emitChars_noFail_snd, hpe]
  · simp [workerBody, noFail_initSleep, noFail_capsFail, noFail_enterSleepFail,
      noFail_enterPressFail, noFail_enterReleaseFail, emitChars_noFail_snd, hpe]

/-! ### Claim theorems: typing engine -/

/-- C3: on every exit path of the worker - normal completion, cancellation
at any check, or an exception raised by any primitive (the initial sleep,
the Caps Lock handling, a keystroke injection, the on_char callback, an
inter-key sleep, or the Enter sequence) - the finally block leaves
`is_typing` false and invokes `on_done` (when provided) exactly once, as the
last action of the session. -/
theorem worker_finalization_always_runs :
    ∀ (e : TyperEngine) (text : List Char) (press_enter : Bool)
      (delay_before : ℚ) (hasOnChar hasOnDone capsOn : Bool)
      (cancelAt : Option Nat) (u : Nat → ℚ → ℚ → ℚ) (f : FailSched),
      (typeTextRun e text press_enter delay_before hasOnChar hasOnDone capsOn
          cancelAt u f).is_typing = false ∧
      (runTrace e text press_enter delay_before hasOnChar hasOnDone capsOn
          cancelAt u f).count KeyEvent.onDone = (if hasOnDone then 1 else 0) ∧
      (hasOnDone = true →
        (runTrace e text press_enter delay_before hasOnChar hasOnDone capsOn
            cancelAt u f).getLast? = some KeyEvent.onDone) := by
  intro e text pe db hc hd capsOn ca u f
  refine ⟨rfl, runTrace_count_onDone e text pe db hc hd capsOn ca u f, ?_⟩
  intro h
  subst h
  exact runTrace_ends_onDone e text pe db hc capsOn ca u f

/-- C3 witness: a concrete cancelled-and-failing run still finalizes: the
engine flag is false, and on_done is the single last event. -/
theorem worker_finalization_always_runs_witness :
    (typeTextRun TyperEngine.init [ 'a' ] true 0 true true false (some 0)
        (fun _ a _ => a)
        { noFail with typeFail := fun _ => true }).is_typing = false ∧
    (runTrace TyperEngine.init [ 'a' ] true 0 true true false (some 0)
        (fun _ a _ => a)
        { noFail with typeFail := fun _ => true }).count KeyEvent.onDone = 1 ∧
    (runTrace TyperEngine.init [ 'a' ] true 0 true true false (some 0)
        (fun _ a _ => a)
        { noFail with typeFail := fun _ => true }).getLast? =
      some KeyEvent.onDone := by
  obtain ⟨h1, h2, h3⟩ := worker_finalization_always_runs TyperEngine.init
    [ 'a' ] true 0 true true false (some 0) (fun _ a _ => a)
    { noFail with typeFail := fun _ => true }
  exact ⟨h1, by simpa using h2, h3 rfl⟩

/-- C1: an uncancelled session over a non-empty text emits exactly one
character event per character, in input order, then exactly one Enter
press/release pair iff `press_enter`; every delay between consecutive
character emissions is at least 0.003 s (given the engine invariant
`base_delay >= 0.003`); and `on_done` runs exactly once, after the last
event. -/
theorem type_text_full_session :
    ∀ (e : TyperEngine) (text : List Char) (press_enter : Bool)
      (delay_before : ℚ) (hasOnChar capsOn : Bool) (u : Nat → ℚ → ℚ → ℚ),
      text ≠ [] → 3/1000 ≤ e.base_delay →
      ((runTrace e text press_enter delay_before hasOnChar true capsOn none u
            noFail).filterMap coreOf =
          text.enum.map (fun p => CoreEv.ch p.1 p.2) ++
            (if press_enter then [CoreEv.entPress, CoreEv.entRelease] else [])) ∧
      (∀ g ∈ interCharGaps (runTrace e text press_enter delay_before hasOnChar
          true capsOn none u noFail), 3/1000 ≤ g) ∧
      (runTrace e text press_enter delay_before hasOnChar true capsOn none u
          noFail).count KeyEvent.onDone = 1 ∧
      (runTrace e text press_enter delay_before hasOnChar true capsOn none u
          noFail).getLast? = some KeyEvent.onDone := by
  intro e text pe db hc capsOn u hne hbase
  have hD : ∀ (j : Nat) (c : Char),
      3/1000 ≤ keyDelay e.base_delay e.humanize (u j) c := by
    intro j c
    unfold keyDelay
    cases h : e.humanize
    · simpa using hbase
    · simp only [if_true]
      exact le_max_left _ _
  have hcount := runTrace_count_onDone e text pe db hc true capsOn none u noFail
  have hlast := runTrace_ends_onDone e text pe db hc capsOn none u noFail
  refine ⟨?_, ?_, by simpa using hcount, hlast⟩
  · simp only [runTrace, typeTextRun]
    rw [workerBody_noFail_shape]
    cases pe <;>
      simp [List.filterMap_append, filterMap_coreOf_capsEvs,
        filterMap_coreOf_emit, filterMap_coreOf_onDoneEvs, remaining,
        List.take_length, coreOf, stopSet, List.enum]
  · intro g hg
    simp only [runTrace, typeTextRun] at hg
    rw [workerBody_noFail_shape] at hg
    simp only [interCharGaps, List.append_assoc, List.cons_append] at hg
    rw [gapsAux_skip_none (KeyEvent.sleep db) rfl, gapsAux_capsEvs_skip] at hg
    refine gapsAux_emit_none e hc u hD text 0 _ ?_ g hg
    intro ev hev
    rcases List.mem_append.1 hev with h | h
    · cases pe with
      | false => simp [stopSet] at h
      | true =>
        simp [stopSet] at h
        rcases h with rfl | rfl | rfl <;> rfl
    · simp [onDoneEvs] at h
      subst h
      rfl

/-- C1 witness: typing "hi" with Enter on the freshly initialized engine. -/
theorem type_text_full_session_witness :
    ((runTrace TyperEngine.init [ 'h', 'i' ] true (3/10) false true false none
          (fun _ a _ => a) noFail).filterMap coreOf =
        ([ 'h', 'i' ] : List Char).enum.map (fun p => CoreEv.ch p.1 p.2) ++
          (if true then [CoreEv.entPress, CoreEv.entRelease] else [])) ∧
    (∀ g ∈ interCharGaps (runTrace TyperEngine.init [ 'h', 'i' ] true (3/10)
        false true false none (fun _ a _ => a) noFail), 3/1000 ≤ g) ∧
    (runTrace TyperEngine.init [ 'h', 'i' ] true (3/10) false true false none
        (fun _ a _ => a) noFail).count KeyEvent.onDone = 1 ∧
    (runTrace TyperEngine.init [ 'h', 'i' ] true (3/10) false true false none
        (fun _ a _ => a) noFail).getLast? = some KeyEvent.onDone :=
  type_text_full_session TyperEngine.init [ 'h', 'i' ] true (3/10) false false
    (fun _ a _ => a) (by simp)
    (by simp [TyperEngine.init, SPEED_PRESETS]; norm_num)

/-- C2: if the cancellation signal becomes visible at check N or N+1 (the
signal was set after the Nth character and before the (N+1)th, racing the
boundary), the session emits exactly the first N or N+1 characters, never
the trailing Enter events; and `stop()` leaves `is_typing` false on the
calling path immediately, without waiting for the worker. -/
theorem cancellation_mid_session :
    ∀ (e : TyperEngine) (text : List Char) (press_enter : Bool)
      (delay_before : ℚ) (hasOnChar hasOnDone capsOn : Bool)
      (u : Nat → ℚ → ℚ → ℚ) (N m : Nat),
      (m = N ∨ m = N + 1) → N < text.length →
      ((runTrace e text press_enter delay_before hasOnChar hasOnDone capsOn
            (some m) u noFail).filterMap coreOf =
          ((text.take m).enum).map (fun p => CoreEv.ch p.1 p.2)) ∧
      (((runTrace e text press_enter delay_before hasOnChar hasOnDone capsOn
            (some m) u noFail).filterMap coreOf).length = N ∨
        ((runTrace e text press_enter delay_before hasOnChar hasOnDone capsOn
            (some m) u noFail).filterMap coreOf).length = N + 1) ∧
      KeyEvent.enterPress ∉ runTrace e text press_enter delay_before hasOnChar
        hasOnDone capsOn (some m) u noFail ∧
      KeyEvent.enterRelease ∉ runTrace e text press_enter delay_before
        hasOnChar hasOnDone capsOn (some m) u noFail ∧
      (∀ e2 : TyperEngine,
        e2.stop.is_typing = false ∧ e2.stop.stopRequested = true) := by
  intro e text pe db hc hd capsOn u N m h1 h2
  have hm : m ≤ text.length := by rcases h1 with rfl | rfl <;> omega
  have hstop : stopSet (some m) text.length = true := by simp [stopSet, hm]
  have hfm : (runTrace e text pe db hc hd capsOn (some m) u noFail).filterMap
      coreOf = ((text.take m).enum).map (fun p => CoreEv.ch p.1 p.2) := by
    simp only [runTrace, typeTextRun]
    rw [workerBody_noFail_shape]
    simp [hstop, List.filterMap_append, filterMap_coreOf_capsEvs,
      filterMap_coreOf_emit, filterMap_coreOf_onDoneEvs, remaining, coreOf,
      List.enum]
  have hnoent : ∀ cv : CoreEv,
      cv ∈ (runTrace e text pe db hc hd capsOn (some m) u noFail).filterMap
        coreOf → ∃ p : Nat × Char, cv = CoreEv.ch p.1 p.2 := by
    intro cv hcv
    rw [hfm] at hcv
    rcases List.mem_map.1 hcv with ⟨p, _, hp⟩
    exact ⟨p, hp.symm⟩
  refine ⟨hfm, ?_, ?_, ?_, fun e2 => ⟨rfl, rfl⟩⟩
  · rw [hfm, List.length_map, List.enum_length, List.length_take,
      Nat.min_eq_left hm]
    exact h1
  · intro hmem
    rcases hnoent CoreEv.entPress
        (List.mem_filterMap.2 ⟨KeyEvent.enterPress, hmem, rfl⟩) with ⟨p, hp⟩
    exact CoreEv.noConfusion hp
  · intro hmem
    rcases hnoent CoreEv.entRelease
        (List.mem_filterMap.2 ⟨KeyEvent.enterRelease, hmem, rfl⟩) with ⟨p, hp⟩
    exact CoreEv.noConfusion hp

/-- C2 witness: cancelling "abc" at check 1 (signal set after the first
character) emits exactly the first character and no Enter events. -/
theorem cancellation_mid_session_witness :
    ((runTrace TyperEngine.init [ 'a', 'b', 'c' ] true 0 false true false
          (some 1) (fun _ a _ => a) noFail).filterMap coreOf =
        ((([ 'a', 'b', 'c' ] : List Char).take 1).enum).map
          (fun p => CoreEv.ch p.1 p.2)) ∧
    (((runTrace TyperEngine.init [ 'a', 'b', 'c' ] true 0 false true false
          (some 1) (fun _ a _ => a) noFail).filterMap coreOf).length = 1 ∨
      ((runTrace TyperEngine.init [ 'a', 'b', 'c' ] true 0 false true false
          (some 1) (fun _ a _ => a) noFail).filterMap coreOf).length = 1 + 1) ∧
    KeyEvent.enterPress ∉ runTrace TyperEngine.init [ 'a', 'b', 'c' ] true 0
      false true false (some 1) (fun _ a _ => a) noFail ∧
    KeyEvent.enterRelease ∉ runTrace TyperEngine.init [ 'a', 'b', 'c' ] true 0
      false true false (some 1) (fun _ a _ => a) noFail ∧
    (∀ e2 : TyperEngine,
      e2.stop.is_typing = false ∧ e2.stop.stopRequested = true) :=
  cancellation_mid_session TyperEngine.init [ 'a', 'b', 'c' ] true 0 false
    true false (fun _ a _ => a) 1 1 (Or.inl rfl) (by decide)

/-- C8: with humanization on, the delay after a character is exactly
max(0.003, base_delay + offset), where the offset is the uniform draw from
[0.01, 0.05] for the pause characters (space and the seven punctuation and
newline characters) and from [-0.008, 0.015] otherwise; with humanization
off the delay is exactly base_delay. -/
theorem humanize_delay_computation :
    ∀ (u : ℚ → ℚ → ℚ),
      (∀ a b : ℚ, a ≤ b → a ≤ u a b ∧ u a b ≤ b) →
      ∀ (base : ℚ) (c : Char),
        (isPauseChar c = true →
          ∃ off : ℚ, 1/100 ≤ off ∧ off ≤ 5/100 ∧
            keyDelay base true u c = max (3/1000) (base + off)) ∧
        (isPauseChar c = false →
          ∃ off : ℚ, -(8/1000) ≤ off ∧ off ≤ 15/1000 ∧
            keyDelay base true u c = max (3/1000) (base + off)) ∧
        keyDelay base false u c = base ∧
        (isPauseChar c = true ↔
          (c = ' ' ∨ c = '.' ∨ c = ',' ∨ c = '!' ∨ c = '?' ∨ c = ';' ∨
            c = ':' ∨ c = '\n')) := by
  intro u hu base c
  refine ⟨?_, ?_, rfl, ?_⟩
  · intro hp
    refine ⟨u (1/100) (5/100), (hu _ _ (by norm_num)).1,
      (hu _ _ (by norm_num)).2, ?_⟩
    simp [keyDelay, drawJitter, hp]
  · intro hp
    refine ⟨u (-(8/1000)) (15/1000), (hu _ _ (by norm_num)).1,
      (hu _ _ (by norm_num)).2, ?_⟩
    simp [keyDelay, drawJitter, hp]
  · simp [isPauseChar, pauseChars]

/-- C8 witness: the period is a pause character, so with the sampler that
returns the lower endpoint the delay is max(0.003, base + 0.01). -/
theorem humanize_delay_computation_witness :
    (isPauseChar '.' = true →
      ∃ off : ℚ, 1/100 ≤ off ∧ off ≤ 5/100 ∧
        keyDelay (22/1000) true (fun a _ => a) '.' =
          max (3/1000) (22/1000 + off)) ∧
    (isPauseChar '.' = false →
      ∃ off : ℚ, -(8/1000) ≤ off ∧ off ≤ 15/1000 ∧
        keyDelay (22/1000) true (fun a _ => a) '.' =
          max (3/1000) (22/1000 + off)) ∧
    keyDelay (22/1000) false (fun a _ => a) '.' = 22/1000 ∧
    (isPauseChar '.' = true ↔
      ('.' = ' ' ∨ '.' = '.' ∨ '.' = ',' ∨ '.' = '!' ∨ '.' = '?' ∨
        '.' = ';' ∨ '.' = ':' ∨ '.' = '\n')) :=
  humanize_delay_computation (fun a _ => a)
    (fun a _ h => ⟨le_refl a, h⟩) (22/1000) '.'
